import Mathlib

/-!
Verification of the image inventory and certification-refresh engine of the
`imagecertinfo-operator` repository.

Go strings that undergo character-level manipulation are embedded as
`List Char` (Go indexes bytes; all the strings manipulated here are ASCII, for
which byte positions and character positions coincide).  Stateful controller
code is embedded as pure state-passing functions; the Kubernetes client's
get/create/update operations become operations on an explicit record store,
and wall-clock instants are `Int` values (seconds).
-/

set_option maxRecDepth 4096

/-! ## Reference parser (`pkg/image/parser.go`) -/

/-- `strings.Split(s, sep)` for a one-character separator. -/
def splitChar (c : Char) : List Char → List (List Char)
  | [] => [[]]
  | x :: xs =>
    let r := splitChar c xs
    if x = c then [] :: r
    else
      match r with
      | [] => [[x]]
      | y :: ys => (x :: y) :: ys

/-- Number of occurrences of a character in a string. -/
def countChar (c : Char) (l : List Char) : Nat :=
  l.countP (fun x => x = c)

/-- `strings.LastIndex(s, c)` followed by the slicing `s[:i], s[i+1:]`:
returns the parts before and after the last occurrence of `c`, or `none`
when `c` does not occur. -/
def breakLast (c : Char) : List Char → Option (List Char × List Char)
  | [] => none
  | x :: xs =>
    match breakLast c xs with
    | some (before, after) => some (x :: before, after)
    | none => if x = c then some ([], xs) else none

/-- `strings.Cut(s, c)` for a one-character separator: the parts before and
after the first occurrence of `c`, or `none` when `c` does not occur. -/
def breakFirst (c : Char) : List Char → Option (List Char × List Char)
  | [] => none
  | x :: xs =>
    if x = c then some ([], xs)
    else
      match breakFirst c xs with
      | some (before, after) => some (x :: before, after)
      | none => none

/-- `strings.TrimPrefix(l, pre)`. -/
def trimPre (pre l : List Char) : List Char :=
  if pre.isPrefixOf l then l.drop pre.length else l

/-- The two unconditional pull-scheme strips at the top of `ParseImageID`. -/
def stripScheme (l : List Char) : List Char :=
  trimPre "docker://".toList (trimPre "docker-pullable://".toList l)

/-- `image.Reference`: parsed image reference components. -/
structure Reference where
  registry : List Char
  repository : List Char
  tag : List Char
  digest : List Char
  fullReference : List Char
  deriving DecidableEq, Repr

/-- The tag-removal step of `ParseImageID`: if a trailing `:segment` exists
whose value contains no `/`, it is the tag and is removed. -/
def splitTag (imageWithoutDigest : List Char) : List Char × List Char :=
  match breakLast ':' imageWithoutDigest with
  | some (before, after) =>
    if '/' ∈ after then (imageWithoutDigest, []) else (before, after)
  | none => (imageWithoutDigest, [])

/-- The registry/repository split of `ParseImageID` (`strings.Cut` on the
first `/` plus the registry heuristics). -/
def splitRegistryRepo (imageWithoutDigest : List Char) : List Char × List Char :=
  match breakFirst '/' imageWithoutDigest with
  | none => ("docker.io".toList, "library/".toList ++ imageWithoutDigest)
  | some (before, after) =>
    if '.' ∈ before ∨ ':' ∈ before ∨ before = "localhost".toList
    then (before, after)
    else ("docker.io".toList, imageWithoutDigest)

/-- Assembles the `Reference` once the `@`-split has produced exactly the
image path and the digest. -/
def mkReference (full iwd dg : List Char) : Reference :=
  let (iwd, tag) := splitTag iwd
  let (registry, repository) := splitRegistryRepo iwd
  { registry := registry, repository := repository, tag := tag,
    digest := dg, fullReference := full }

/-- The `match` on the result of the `@`-split in `ParseImageID`: Go requires
`len(parts) == 2` and fails otherwise. -/
def afterSplit (full : List Char) : List (List Char) → Option Reference
  | [iwd, dg] => some (mkReference full iwd dg)
  | _ => none

/-- `image.ParseImageID`. -/
def parseImageID (imageID : List Char) : Option Reference :=
  if imageID = [] then none
  else
    let s := stripScheme imageID
    afterSplit s (splitChar '@' s)

/-- The character test of the keep-branch of `sanitizeK8sName` (lowercase
letter, digit, `.` or `-`). -/
def isKeepChar (c : Char) : Bool :=
  ('a' ≤ c && c ≤ 'z') || ('0' ≤ c && c ≤ '9') || c == '.' || c == '-'

/-- The loop body of `sanitizeK8sName`: `n` is the length of the whole input
and `i` the position of the current character. -/
def sanitizeLoop (n : Nat) : Nat → List Char → List Char
  | _, [] => []
  | i, r :: rest =>
    (if isKeepChar r then [r]
     else if r = '_' ∨ r = '/' then ['.']
     else if 0 < i ∧ i < n - 1 then ['-']
     else []) ++ sanitizeLoop n (i + 1) rest

/-- `strings.Trim(s, cutset)` for a character predicate. -/
def trimChars (p : Char → Bool) (l : List Char) : List Char :=
  ((l.dropWhile p).reverse.dropWhile p).reverse

/-- `sanitizeK8sName`. -/
def sanitizeK8sName (name : List Char) : List Char :=
  trimChars (fun c => c == '.' || c == '-') (sanitizeLoop name.length 0 name)

/-- Go's `unicode.ToLower` on the ASCII range (the only range exercised by
the strings manipulated here). -/
def goToLower (c : Char) : Char :=
  if 'A' ≤ c ∧ c ≤ 'Z' then Char.ofNat (c.toNat + 32) else c

/-- The short-digest extraction of `ReferenceToCRName`: first 8 characters
after a `sha256:` marker. -/
def shortDigestOf (digest : List Char) : List Char :=
  if "sha256:".toList.isPrefixOf digest then
    let t := digest.drop 7
    if t.length > 8 then t.take 8 else t
  else digest

/-- `image.ReferenceToCRName`. -/
def referenceToCRName (ref : Reference) : List Char :=
  let name := ref.registry ++ '.' :: ref.repository
  let name := name.map (fun ch => if ch = '/' then '.' else ch)
  let name := name ++ '.' :: shortDigestOf ref.digest
  let name := name.map goToLower
  let name := sanitizeK8sName name
  name.take 253

/-- `v1alpha1.RegistryType`. -/
inductive RegistryType where
  | redHat | partner | community | privateReg | unknown
  deriving DecidableEq, Repr

/-- `image.ClassifyRegistry`. -/
def classifyRegistry (registry : List Char) : RegistryType :=
  let registry := registry.map goToLower
  if registry = "registry.redhat.io".toList ∨
     registry = "registry.access.redhat.com".toList ∨
     registry = "registry.connect.redhat.com".toList then .redHat
  else if registry = "quay.io".toList then .partner
  else if registry = "docker.io".toList ∨ registry = "ghcr.io".toList ∨
          registry = "gcr.io".toList ∨ registry = "registry.k8s.io".toList ∨
          registry = "k8s.gcr.io".toList then .community
  else if ".local".toList.isSuffixOf registry ∨
          ".internal".toList.isSuffixOf registry ∨
          registry = "localhost".toList ∨
          "localhost:".toList.isPrefixOf registry then .privateReg
  else .unknown

/-- `image.IsRedHatRegistry`. -/
def isRedHatRegistry (registry : List Char) : Bool :=
  classifyRegistry registry == RegistryType.redHat

/-! ## Data model (`api/v1alpha1/imagecertificationinfo_types.go`,
`pkg/pyxis` types, `pkg/dockerhub/client.go`) -/

/-- `v1alpha1.CertificationStatus`. -/
inductive CertificationStatus where
  | certified | notCertified | pending | unknown | error
  deriving DecidableEq, Repr

/-- `v1alpha1.PodReference` (the Go field `Namespace` is `namespaceName`
here because `namespace` is a Lean keyword). -/
structure PodReference where
  namespaceName : String
  name : String
  container : String
  deriving DecidableEq, Repr

/-- `v1alpha1.VulnerabilitySummary`. -/
structure VulnerabilitySummary where
  critical : Int
  important : Int
  moderate : Int
  low : Int
  deriving DecidableEq, Repr

/-- `v1alpha1.PyxisData`.  `metav1.Time` values are embedded as `Int`
seconds; the Go `map[string]string` becomes an association list. -/
structure PyxisData where
  projectID : String
  publisher : String
  healthIndex : String
  catalogURL : String
  publishedAt : Option Int
  vulnerabilities : Option VulnerabilitySummary
  eolDate : Option Int
  releaseCategory : String
  replacedBy : String
  architectures : List String
  compressedSizeBytes : Int
  autoRebuildEnabled : Bool
  architectureHealth : List (String × String)
  uncompressedSizeBytes : Int
  layerCount : Int
  buildDate : String
  advisoryIDs : List String
  deriving DecidableEq, Repr

/-- `pyxis.CertificationData` (timestamps are the raw strings Pyxis
returned, exactly as in the Go struct). -/
structure CertificationData where
  projectID : String
  publisher : String
  healthIndex : String
  vulnerabilities : Option VulnerabilitySummary
  catalogURL : String
  imageID : String
  publishedAt : String
  cves : List String
  eolDate : String
  releaseCategory : String
  replacedBy : String
  architectures : List String
  compressedSizeBytes : Int
  autoRebuildEnabled : Bool
  architectureHealth : List (String × String)
  uncompressedSizeBytes : Int
  layerCount : Int
  buildDate : String
  advisoryIDs : List String
  deriving DecidableEq, Repr

/-- A `metav1.Condition` as set by the reconciler. -/
structure Condition where
  condType : String
  status : Bool
  lastTransitionTime : Int
  reason : String
  message : String
  deriving DecidableEq, Repr

/-- `v1alpha1.ImageCertificationInfoSpec`. -/
structure ImageCertificationInfoSpec where
  imageDigest : List Char
  fullImageReference : List Char
  registry : List Char
  repository : List Char
  tag : List Char
  deriving DecidableEq, Repr

/-- `v1alpha1.ImageCertificationInfoStatus`. -/
structure ImageCertificationInfoStatus where
  registryType : RegistryType
  certificationStatus : CertificationStatus
  pyxisData : Option PyxisData
  podReferences : List PodReference
  firstSeenAt : Option Int
  lastSeenAt : Option Int
  lastPyxisCheckAt : Option Int
  imageAge : String
  daysUntilEOL : Option Int
  conditions : List Condition
  deriving DecidableEq, Repr

/-- `v1alpha1.ImageCertificationInfo` (its cluster-unique `metadata.name`
plus spec and status). -/
structure ImageCertificationInfo where
  name : List Char
  spec : ImageCertificationInfoSpec
  status : ImageCertificationInfoStatus
  deriving DecidableEq, Repr

/-- A `corev1.ContainerStatus` as consumed by the reconciler. -/
structure ContainerStatus where
  name : String
  imageID : List Char
  deriving DecidableEq, Repr

/-- `corev1.PodPhase`. -/
inductive PodPhase where
  | running | pending | succeeded | failed | unknownPhase
  deriving DecidableEq, Repr

/-- A `corev1.Pod` as consumed by the reconciler. -/
structure Pod where
  namespaceName : String
  name : String
  phase : PodPhase
  containerStatuses : List ContainerStatus
  initContainerStatuses : List ContainerStatus
  deriving DecidableEq, Repr

/-! ## Enrichment write-back (`checkPyxisCertification` in the controller) -/

/-- `int(d.Hours() / 24)` for a duration in seconds: Go converts the float
quotient to `int` by truncation toward zero. -/
def durationDays (d : Int) : Int :=
  Int.tdiv d 86400

/-- `formatDuration` from the controller. -/
def formatDuration (d : Int) : String :=
  let days := durationDays d
  if days < 1 then "less than a day"
  else if days = 1 then "1 day"
  else if days < 30 then toString days ++ " days"
  else
    let months := Int.tdiv days 30
    if months = 1 then "1 month"
    else if months < 12 then toString months ++ " months"
    else
      let years := Int.tdiv months 12
      let remainingMonths := Int.tmod months 12
      if years = 1 then
        if remainingMonths = 0 then "1 year"
        else "1 year " ++ toString remainingMonths ++ " months"
      else if remainingMonths = 0 then toString years ++ " years"
      else toString years ++ " years " ++ toString remainingMonths ++ " months"

/-- The fresh `PyxisData` struct built inside `checkPyxisCertification` when
Pyxis returned data.  `parseRFC3339` and `parseDateOnly` stand for the two
`time.Parse` layouts of the Go standard library (external collaborators);
they return `none` when parsing fails, in which case the corresponding
timestamp field is left unset, exactly as in the source. -/
def buildPyxisData (parseRFC3339 parseDateOnly : String → Option Int)
    (d : CertificationData) : PyxisData :=
  { projectID := d.projectID
    publisher := d.publisher
    healthIndex := d.healthIndex
    catalogURL := d.catalogURL
    publishedAt := if d.publishedAt ≠ "" then parseRFC3339 d.publishedAt else none
    vulnerabilities := d.vulnerabilities
    eolDate :=
      if d.eolDate ≠ "" then
        match parseRFC3339 d.eolDate with
        | some t => some t
        | none => parseDateOnly d.eolDate
      else none
    releaseCategory := d.releaseCategory
    replacedBy := d.replacedBy
    architectures := d.architectures
    compressedSizeBytes := d.compressedSizeBytes
    autoRebuildEnabled := d.autoRebuildEnabled
    architectureHealth := d.architectureHealth
    uncompressedSizeBytes := d.uncompressedSizeBytes
    layerCount := d.layerCount
    buildDate := d.buildDate
    advisoryIDs := d.advisoryIDs }

/-- The status write-back of `checkPyxisCertification`, as a pure function
of the Pyxis call's outcome (`.error` = transport error, `.ok none` = the
confirmed-absent result, `.ok (some d)` = certification data) and the
freshly fetched record status.  Event emission and metrics are side
channels and are not part of the record state. -/
def checkPyxisCertification (parseRFC3339 parseDateOnly : String → Option Int)
    (now : Int) (result : Except Unit (Option CertificationData))
    (st : ImageCertificationInfoStatus) : ImageCertificationInfoStatus :=
  let st := { st with lastPyxisCheckAt := some now }
  match result with
  | .error _ => { st with certificationStatus := .error }
  | .ok none => { st with certificationStatus := .notCertified }
  | .ok (some d) =>
    let pd := buildPyxisData parseRFC3339 parseDateOnly d
    let st := { st with certificationStatus := .certified, pyxisData := some pd }
    let st :=
      match pd.publishedAt with
      | some pub => { st with imageAge := formatDuration (now - pub) }
      | none => st
    match pd.eolDate with
    | some eol => { st with daysUntilEOL := some (durationDays (eol - now)) }
    | none => st

/-! ## Pod reconciler (`PodReconciler.Reconcile` and helpers) -/

/-- `createImageCertificationInfo`: the record written by the create path
(object create followed by the initial status update). -/
def createImageCertificationInfo (now : Int) (ref : Reference)
    (crName : List Char) (podRef : PodReference) : ImageCertificationInfo :=
  { name := crName
    spec :=
      { imageDigest := ref.digest
        fullImageReference := ref.fullReference
        registry := ref.registry
        repository := ref.repository
        tag := ref.tag }
    status :=
      { registryType := classifyRegistry ref.registry
        certificationStatus := .unknown
        pyxisData := none
        podReferences := [podRef]
        firstSeenAt := some now
        lastSeenAt := some now
        lastPyxisCheckAt := none
        imageAge := ""
        daysUntilEOL := none
        conditions := [⟨"Available", true, now, "ImageDiscovered",
          "Image has been discovered in the cluster"⟩] } }

/-- `updatePodReferences`: the status mutation applied to an existing record
when a workload reference is (re-)observed. -/
def updatePodReferences (now : Int) (st : ImageCertificationInfoStatus)
    (podRef : PodReference) : ImageCertificationInfoStatus :=
  if st.podReferences.any (fun existing =>
      existing.namespaceName == podRef.namespaceName &&
      existing.name == podRef.name &&
      existing.container == podRef.container)
  then { st with lastSeenAt := some now }
  else { st with podReferences := st.podReferences ++ [podRef],
                 lastSeenAt := some now }

/-- The body of the per-container-status loop of `PodReconciler.Reconcile`,
acting on the record store (get / create / status-update become pure store
operations; the detached asynchronous enrichment goroutine is outside the
reconciliation pass and not part of its store effect). -/
def processContainerStatus (now : Int) (pod : Pod)
    (store : List ImageCertificationInfo) (cs : ContainerStatus) :
    List ImageCertificationInfo :=
  if cs.imageID = [] then store
  else
    match parseImageID cs.imageID with
    | none => store
    | some ref =>
      let crName := referenceToCRName ref
      let podRef : PodReference := ⟨pod.namespaceName, pod.name, cs.name⟩
      match store.find? (fun cr => cr.name == crName) with
      | none => store ++ [createImageCertificationInfo now ref crName podRef]
      | some _ =>
        store.map (fun cr =>
          if cr.name == crName
          then { cr with status := updatePodReferences now cr.status podRef }
          else cr)

/-- `PodReconciler.Reconcile` after the pod has been fetched successfully:
skip pods that are neither Running nor Pending, then process every container
status (regular statuses first, then init-container statuses, as in the Go
`append`). -/
def reconcilePod (now : Int) (pod : Pod)
    (store : List ImageCertificationInfo) : List ImageCertificationInfo :=
  if pod.phase = .running ∨ pod.phase = .pending then
    (pod.containerStatuses ++ pod.initContainerStatuses).foldl
      (processContainerStatus now pod) store
  else store

/-! ## Stale-reference sweeper (`CleanupStaleReferences`) -/

/-- Outcome of the per-reference pod existence check (`r.Get` on the pod):
found, confirmed not-found, or any other error. -/
inductive PodLookup where
  | found | notFound | err
  deriving DecidableEq, Repr

/-- The reference-collection loop of `CleanupStaleReferences`: a reference
is dropped only on a confirmed not-found; it is kept both when the pod
exists and when the existence check fails with any other error. -/
def collectValidRefs (check : PodReference → PodLookup) :
    List PodReference → List PodReference
  | [] => []
  | r :: rest =>
    match check r with
    | .notFound => collectValidRefs check rest
    | _ => r :: collectValidRefs check rest

/-- The per-record body of `CleanupStaleReferences`: the Boolean records
whether the status write-back was issued (only when the reference count
changed). -/
def cleanupRecordStatus (check : PodReference → PodLookup)
    (st : ImageCertificationInfoStatus) :
    ImageCertificationInfoStatus × Bool :=
  let valid := collectValidRefs check st.podReferences
  if valid.length ≠ st.podReferences.length
  then ({ st with podReferences := valid }, true)
  else (st, false)

/-- `CleanupStaleReferences` over the whole record store. -/
def cleanupStaleReferences (check : PodReference → PodLookup)
    (store : List ImageCertificationInfo) : List ImageCertificationInfo :=
  store.map (fun cr => { cr with status := (cleanupRecordStatus check cr.status).1 })

/-! ## Caching decorator (`dockerhub.CachedClient`) -/

/-- `dockerhub.RepositoryInfo` (the Go field `Namespace` is
`namespaceName`; `LastUpdated` is an `Int` instant). -/
structure RepositoryInfo where
  namespaceName : String
  name : String
  isOfficial : Bool
  isVerifiedPublisher : Bool
  pullCount : Int
  starCount : Int
  lastUpdated : Int
  description : String
  deriving DecidableEq, Repr

/-- `dockerhub.cacheEntry`: the cached pointer (`none` = the wrapped
client's explicit nil result) and its expiry instant. -/
structure CacheEntryM where
  data : Option RepositoryInfo
  expiresAt : Int
  deriving DecidableEq, Repr

/-- The cache map (`map[string]cacheEntry`) as an association list. -/
def CacheMap := List (String × CacheEntryM)

/-- Map read. -/
def mapGet (m : CacheMap) (k : String) : Option CacheEntryM :=
  match m with
  | [] => none
  | (k', v) :: rest => if k' == k then some v else mapGet rest k

/-- Map write (replace any existing binding for the key). -/
def mapInsert (k : String) (v : CacheEntryM) (m : CacheMap) : CacheMap :=
  (k, v) :: m.filter (fun p => !(p.1 == k))

/-- `dockerhub.cacheKey`. -/
def cacheKey (namespaceArg repository : String) : String :=
  namespaceArg ++ "/" ++ repository

/-- `CachedClient.GetRepositoryInfo` as a pure step: given the current
instant, the ttl, the cache state and the outcome the wrapped client would
produce, it returns the call's result, the new cache state, and whether the
wrapped client was invoked.  The Go code reads the clock separately for the
expiry test and for the stored expiry; both reads are the single `now`
here. -/
def cachedGetRepositoryInfo (now ttl : Int) (st : CacheMap)
    (namespaceArg repository : String)
    (fetch : Except Unit (Option RepositoryInfo)) :
    Except Unit (Option RepositoryInfo) × CacheMap × Bool :=
  let key := cacheKey namespaceArg repository
  match mapGet st key with
  | some entry =>
    if now < entry.expiresAt then (.ok entry.data, st, false)
    else
      match fetch with
      | .error e => (.error e, st, true)
      | .ok d => (.ok d, mapInsert key ⟨d, now + ttl⟩ st, true)
  | none =>
    match fetch with
    | .error e => (.error e, st, true)
    | .ok d => (.ok d, mapInsert key ⟨d, now + ttl⟩ st, true)

/-! ## Health-grade degradation check -/

/-- Modelled from the spec: the implementation of `isHealthDegraded` is not
under `src/` (only its test table in the controller tests is).  Spec §4.4:
the new health grade is compared against the previous one "using a fixed
ordinal ranking (best→worst)"; §8: transitions involving an empty or
unrecognized grade are never flagged.  The recognized grades are the health
grades A–F of `HealthIndex`. -/
def gradeRank : String → Option Nat
  | "A" => some 0
  | "B" => some 1
  | "C" => some 2
  | "D" => some 3
  | "E" => some 4
  | "F" => some 5
  | _ => none

/-- Modelled from the spec: a transition is degraded exactly when both
grades are recognized and the new grade ranks strictly worse. -/
def isHealthDegraded (oldGrade newGrade : String) : Bool :=
  match gradeRank oldGrade, gradeRank newGrade with
  | some o, some n => o < n
  | _, _ => false

/-- The sixteen lowercase hexadecimal digits. -/
def hexLowerChars : List Char :=
  ['a', 'b', 'c', 'd', 'e', 'f', '0', '1', '2', '3', '4', '5', '6', '7', '8', '9']

/-! ## General lemmas about the embedded string operations -/

theorem splitChar_ne_nil (c : Char) (l : List Char) : splitChar c l ≠ [] := by
  induction l with
  | nil => simp [splitChar]
  | cons x xs ih =>
    simp only [splitChar]
    split
    · simp
    · cases h : splitChar c xs with
      | nil => exact absurd h ih
      | cons y ys => simp [h]

theorem splitChar_of_not_mem (c : Char) (l : List Char)
    (h : ∀ x ∈ l, x ≠ c) : splitChar c l = [l] := by
  induction l with
  | nil => rfl
  | cons x xs ih =>
    have hx : x ≠ c := h x (by simp)
    have ih' := ih (fun y hy => h y (by simp [hy]))
    simp [splitChar, hx, ih']

theorem splitChar_pair (c : Char) (l₁ l₂ : List Char)
    (h₁ : ∀ x ∈ l₁, x ≠ c) (h₂ : ∀ x ∈ l₂, x ≠ c) :
    splitChar c (l₁ ++ c :: l₂) = [l₁, l₂] := by
  induction l₁ with
  | nil => simp [splitChar, splitChar_of_not_mem c l₂ h₂]
  | cons x xs ih =>
    have hx : x ≠ c := h₁ x (by simp)
    have ih' := ih (fun y hy => h₁ y (by simp [hy]))
    simp [splitChar, hx, ih']

theorem length_splitChar (c : Char) (l : List Char) :
    (splitChar c l).length = countChar c l + 1 := by
  induction l with
  | nil => simp [splitChar, countChar]
  | cons x xs ih =>
    simp only [splitChar, countChar, List.countP_cons] at *
    by_cases hx : x = c
    · simp [hx, ih, countChar, Nat.add_comm]
    · cases h : splitChar c xs with
      | nil => exact absurd h (splitChar_ne_nil c xs)
      | cons y ys =>
        rw [h] at ih
        simp only [List.length_cons] at ih
        simp [hx, h, countChar]
        omega

theorem afterSplit_isSome (full : List Char) (parts : List (List Char)) :
    (afterSplit full parts).isSome = true ↔ parts.length = 2 := by
  match parts with
  | [] => simp [afterSplit]
  | [a] => simp [afterSplit]
  | [a, b] => simp [afterSplit]
  | a :: b :: x :: rest => simp [afterSplit]

theorem mapId_of_mem {α : Type} (f : α → α) (l : List α)
    (h : ∀ x ∈ l, f x = x) : l.map f = l := by
  induction l with
  | nil => rfl
  | cons x xs ih => simp [h x (by simp), ih (fun y hy => h y (by simp [hy]))]

theorem sanitizeLoop_keep (n : Nat) (l : List Char)
    (h : ∀ x ∈ l, isKeepChar x = true) :
    ∀ i, sanitizeLoop n i l = l := by
  induction l with
  | nil => intro i; rfl
  | cons x xs ih =>
    intro i
    simp [sanitizeLoop, h x (by simp), ih (fun y hy => h y (by simp [hy]))]

theorem sanitizeLoop_all_keep (n : Nat) (l : List Char) :
    ∀ i, (sanitizeLoop n i l).all isKeepChar = true := by
  induction l with
  | nil => intro i; rfl
  | cons x xs ih =>
    intro i
    simp only [sanitizeLoop, List.all_append, Bool.and_eq_true]
    refine ⟨?_, ih (i + 1)⟩
    by_cases hk : isKeepChar x = true
    · simp [hk]
    · rw [if_neg hk]
      split
      · decide
      · split
        · decide
        · decide

theorem dropWhile_eq_self_of_take_one (p : Char → Bool) (l : List Char)
    (h : ∀ x ∈ l.take 1, p x = false) : l.dropWhile p = l := by
  cases l with
  | nil => rfl
  | cons x xs => simp [List.dropWhile_cons, h x (by simp)]

theorem trimChars_eq_self (p : Char → Bool) (l : List Char)
    (h1 : ∀ x ∈ l.take 1, p x = false)
    (h2 : ∀ x ∈ l.reverse.take 1, p x = false) : trimChars p l = l := by
  unfold trimChars
  rw [dropWhile_eq_self_of_take_one p l h1,
      dropWhile_eq_self_of_take_one p l.reverse h2, List.reverse_reverse]

theorem take_one_append_left {α : Type} (l m : List α) (h : l ≠ []) :
    (l ++ m).take 1 = l.take 1 := by
  cases l with
  | nil => exact absurd rfl h
  | cons x xs => simp

theorem hexLower_facts (c : Char) (h : c ∈ hexLowerChars) :
    goToLower c = c ∧ isKeepChar c = true ∧ c ≠ '@' ∧
    (fun x => x == '.' || x == '-') c = false := by
  fin_cases h <;> exact ⟨by decide, by decide, by decide, by decide⟩

/-! ## C8: health-grade degradation ordering -/

/-- **C8.** The degradation check flags a grade transition exactly when both
grades are recognized (rank A–F) and the new grade is strictly worse under
the fixed best-to-worst ordinal ranking; in particular the ten transition
vectors of the in-repo test table `TestIsHealthDegraded` hold. -/
theorem claim_C8_isHealthDegraded :
    (∀ oldGrade newGrade : String,
      isHealthDegraded oldGrade newGrade = true ↔
        ∃ o n, gradeRank oldGrade = some o ∧ gradeRank newGrade = some n ∧ o < n) ∧
    (isHealthDegraded "A" "B" = true ∧ isHealthDegraded "A" "C" = true ∧
     isHealthDegraded "A" "F" = true ∧ isHealthDegraded "B" "A" = false ∧
     isHealthDegraded "B" "B" = false ∧ isHealthDegraded "C" "D" = true ∧
     isHealthDegraded "F" "A" = false ∧ isHealthDegraded "" "B" = false ∧
     isHealthDegraded "A" "" = false ∧ isHealthDegraded "X" "Y" = false) := by
  constructor
  · intro oldGrade newGrade
    unfold isHealthDegraded
    cases ho : gradeRank oldGrade with
    | none => simp [ho]
    | some o =>
      cases hn : gradeRank newGrade with
      | none => simp [ho, hn]
      | some n => simp [ho, hn]
  · exact ⟨by decide, by decide, by decide, by decide, by decide,
      by decide, by decide, by decide, by decide, by decide⟩

/-! ## C2: idempotent workload-reference addition -/

theorem podRef_any_iff_mem (podRef : PodReference) (l : List PodReference) :
    (l.any (fun existing =>
        existing.namespaceName == podRef.namespaceName &&
        existing.name == podRef.name &&
        existing.container == podRef.container)) = true ↔ podRef ∈ l := by
  rw [List.any_eq_true]
  constructor
  · rintro ⟨e, he, hm⟩
    simp only [Bool.and_eq_true, beq_iff_eq] at hm
    obtain ⟨⟨h1, h2⟩, h3⟩ := hm
    have : e = podRef := by cases e; cases podRef; simp_all
    rwa [← this]
  · intro h
    exact ⟨podRef, h, by simp⟩

/-- **C2.** Adding a workload reference is idempotent: a triple already
present (by full-triple equality) leaves the reference list unchanged on
replay; a triple not yet present is appended exactly once (it occurs once
in the result). -/
theorem claim_C2_updatePodReferences_dedup (now : Int)
    (st : ImageCertificationInfoStatus) (podRef : PodReference) :
    (podRef ∈ st.podReferences →
      (updatePodReferences now st podRef).podReferences = st.podReferences) ∧
    (podRef ∉ st.podReferences →
      (updatePodReferences now st podRef).podReferences
          = st.podReferences ++ [podRef] ∧
      ((updatePodReferences now st podRef).podReferences.countP
          (fun x => x == podRef)) = 1) := by
  constructor
  · intro hmem
    unfold updatePodReferences
    rw [if_pos ((podRef_any_iff_mem podRef st.podReferences).mpr hmem)]
  · intro hniff
    have hany : (st.podReferences.any (fun existing =>
        existing.namespaceName == podRef.namespaceName &&
        existing.name == podRef.name &&
        existing.container == podRef.container)) = false := by
      rw [← Bool.not_eq_true, podRef_any_iff_mem]
      exact hniff
    unfold updatePodReferences
    rw [if_neg (by simp [hany])]
    refine ⟨rfl, ?_⟩
    simp only [List.countP_append]
    have h0 : st.podReferences.countP (fun x => x == podRef) = 0 := by
      rw [List.countP_eq_zero]
      intro a ha
      simp only [beq_iff_eq]
      intro heq
      exact hniff (heq ▸ ha)
    simp [h0]

/-- Witness for **C2** at concrete inputs: replaying an existing triple
keeps the list, a fresh triple is appended once. -/
theorem claim_C2_witness :
    (updatePodReferences 5
        ⟨.redHat, .unknown, none, [⟨"default", "p1", "c1"⟩], none, none, none, "", none, []⟩
        ⟨"default", "p1", "c1"⟩).podReferences = [⟨"default", "p1", "c1"⟩] ∧
    (updatePodReferences 5
        ⟨.redHat, .unknown, none, [⟨"default", "p1", "c1"⟩], none, none, none, "", none, []⟩
        ⟨"default", "p2", "c1"⟩).podReferences
      = [⟨"default", "p1", "c1"⟩, ⟨"default", "p2", "c1"⟩] :=
  ⟨(claim_C2_updatePodReferences_dedup 5
      ⟨.redHat, .unknown, none, [⟨"default", "p1", "c1"⟩], none, none, none, "", none, []⟩
      ⟨"default", "p1", "c1"⟩).1 (by decide),
   ((claim_C2_updatePodReferences_dedup 5
      ⟨.redHat, .unknown, none, [⟨"default", "p1", "c1"⟩], none, none, none, "", none, []⟩
      ⟨"default", "p2", "c1"⟩).2 (by decide)).1⟩

/-! ## C3 / C4: enrichment write-back -/

/-- **C3.** On an enrichment completion without transport error, regardless
of the record's prior certification status: with data present the status
becomes Certified and the stored enrichment payload is exactly the payload
built from the new data (the right-hand sides do not depend on the prior
status `st`, so nothing is merged from the previously stored payload); with
the confirmed-absent result the status becomes NotCertified. -/
theorem claim_C3_enrichment_success (parseRFC3339 parseDateOnly : String → Option Int)
    (now : Int) (d : CertificationData) (st : ImageCertificationInfoStatus) :
    ((checkPyxisCertification parseRFC3339 parseDateOnly now (.ok (some d)) st).certificationStatus
        = .certified ∧
     (checkPyxisCertification parseRFC3339 parseDateOnly now (.ok (some d)) st).pyxisData
        = some (buildPyxisData parseRFC3339 parseDateOnly d)) ∧
    (checkPyxisCertification parseRFC3339 parseDateOnly now (.ok none) st).certificationStatus
        = .notCertified := by
  refine ⟨⟨?_, ?_⟩, ?_⟩
  · unfold checkPyxisCertification
    cases h1 : (buildPyxisData parseRFC3339 parseDateOnly d).publishedAt <;>
      cases h2 : (buildPyxisData parseRFC3339 parseDateOnly d).eolDate <;>
        simp [h1, h2]
  · unfold checkPyxisCertification
    cases h1 : (buildPyxisData parseRFC3339 parseDateOnly d).publishedAt <;>
      cases h2 : (buildPyxisData parseRFC3339 parseDateOnly d).eolDate <;>
        simp [h1, h2]
  · rfl

/-- **C4.** On an enrichment transport error the status is set to Error and
the check timestamp is recorded, while the previously stored enrichment
payload and the fields derived from it are left unchanged. -/
theorem claim_C4_enrichment_error (parseRFC3339 parseDateOnly : String → Option Int)
    (now : Int) (st : ImageCertificationInfoStatus) :
    (checkPyxisCertification parseRFC3339 parseDateOnly now (.error ()) st).certificationStatus
        = .error ∧
    (checkPyxisCertification parseRFC3339 parseDateOnly now (.error ()) st).lastPyxisCheckAt
        = some now ∧
    (checkPyxisCertification parseRFC3339 parseDateOnly now (.error ()) st).pyxisData
        = st.pyxisData ∧
    (checkPyxisCertification parseRFC3339 parseDateOnly now (.error ()) st).imageAge
        = st.imageAge ∧
    (checkPyxisCertification parseRFC3339 parseDateOnly now (.error ()) st).daysUntilEOL
        = st.daysUntilEOL ∧
    (checkPyxisCertification parseRFC3339 parseDateOnly now (.error ()) st).podReferences
        = st.podReferences := by
  exact ⟨rfl, rfl, rfl, rfl, rfl, rfl⟩

/-! ## C5: stale-reference cleanup -/

theorem collectValidRefs_eq_filter (check : PodReference → PodLookup)
    (refs : List PodReference) :
    collectValidRefs check refs
      = refs.filter (fun r => !(check r == PodLookup.notFound)) := by
  induction refs with
  | nil => rfl
  | cons r rest ih =>
    simp only [collectValidRefs, List.filter_cons]
    cases h : check r <;> simp [h, ih]

theorem filter_length_eq_imp {α : Type} (p : α → Bool) :
    ∀ l : List α, (l.filter p).length = l.length → ∀ a ∈ l, p a = true := by
  intro l
  induction l with
  | nil => intro _ a ha; cases ha
  | cons x xs ih =>
    intro hlen a ha
    by_cases hx : p x = true
    · rcases List.mem_cons.mp ha with rfl | ha
      · exact hx
      · exact ih (by simpa [hx] using hlen) a ha
    · exfalso
      have hle := List.length_filter_le p xs
      rw [List.filter_cons, if_neg (by simp [hx])] at hlen
      simp only [List.length_cons] at hlen
      omega

/-- **C5.** In a stale-reference cleanup pass, per record: a reference
survives exactly when the pod existence check did not confirm it absent (so
references are removed only on a confirmed not-found, and kept when the
check fails with any other error), and the status write-back is issued
exactly when the reference set actually shrank. -/
theorem claim_C5_cleanupStaleReferences (check : PodReference → PodLookup)
    (st : ImageCertificationInfoStatus) :
    (∀ r, r ∈ (cleanupRecordStatus check st).1.podReferences ↔
        (r ∈ st.podReferences ∧ check r ≠ .notFound)) ∧
    ((cleanupRecordStatus check st).2 = true ↔
        (collectValidRefs check st.podReferences).length
          < st.podReferences.length) := by
  have hfil := collectValidRefs_eq_filter check st.podReferences
  have hle : (collectValidRefs check st.podReferences).length
      ≤ st.podReferences.length := by
    rw [hfil]; exact List.length_filter_le _ _
  by_cases hlen : (collectValidRefs check st.podReferences).length
      = st.podReferences.length
  · constructor
    · intro r
      simp only [cleanupRecordStatus, hlen, ne_eq, not_true_eq_false, if_false]
      constructor
      · intro hr
        refine ⟨hr, ?_⟩
        have := filter_length_eq_imp _ st.podReferences
          (by rw [← hfil]; exact hlen) r hr
        simpa using this
      · exact fun h => h.1
    · simp only [cleanupRecordStatus, hlen, ne_eq, not_true_eq_false, if_false]
      constructor
      · intro h; cases h
      · intro h; omega
  · constructor
    · intro r
      simp only [cleanupRecordStatus, ne_eq, hlen, not_false_eq_true, if_true]
      rw [hfil, List.mem_filter]
      simp
    · simp only [cleanupRecordStatus, ne_eq, hlen, not_false_eq_true, if_true]
      constructor
      · intro _; omega
      · intro _; trivial

/-! ## C7 / C10: caching decorator -/

theorem mapGet_insert_self (k : String) (v : CacheEntryM) (m : CacheMap) :
    mapGet (mapInsert k v m) k = some v := by
  simp [mapInsert, mapGet]

/-- **C7.** For a lookup key of the caching decorator, starting cold: the
first successful call invokes the wrapped client and stores its result
(including the explicit absent result `d = none`); any repeated request
strictly before `now + ttl` returns the stored result with no wrapped-client
invocation and no state change; once `now + ttl` has been reached the next
request invokes the wrapped client again; and a failed wrapped-client call
never changes the cache, so a later request on a still-cold key invokes the
wrapped client again. -/
theorem claim_C7_cache_ttl_and_errors (now ttl : Int) (st : CacheMap)
    (namespaceArg repository : String) (d : Option RepositoryInfo)
    (hcold : mapGet st (cacheKey namespaceArg repository) = none) :
    (cachedGetRepositoryInfo now ttl st namespaceArg repository (.ok d)).2.2 = true ∧
    (cachedGetRepositoryInfo now ttl st namespaceArg repository (.ok d)).2.1
      = mapInsert (cacheKey namespaceArg repository) ⟨d, now + ttl⟩ st ∧
    (∀ (t : Int) (fetch2 : Except Unit (Option RepositoryInfo)), t < now + ttl →
      cachedGetRepositoryInfo t ttl
          (mapInsert (cacheKey namespaceArg repository) ⟨d, now + ttl⟩ st)
          namespaceArg repository fetch2
        = (.ok d, mapInsert (cacheKey namespaceArg repository) ⟨d, now + ttl⟩ st, false)) ∧
    (∀ (t : Int) (fetch2 : Except Unit (Option RepositoryInfo)), now + ttl ≤ t →
      (cachedGetRepositoryInfo t ttl
          (mapInsert (cacheKey namespaceArg repository) ⟨d, now + ttl⟩ st)
          namespaceArg repository fetch2).2.2 = true) ∧
    (∀ (t : Int) (st' : CacheMap),
      (cachedGetRepositoryInfo t ttl st' namespaceArg repository (.error ())).2.1 = st' ∧
      (mapGet st' (cacheKey namespaceArg repository) = none →
        (cachedGetRepositoryInfo t ttl st' namespaceArg repository (.error ())).2.2
          = true)) := by
  refine ⟨?_, ?_, ?_, ?_, ?_⟩
  · simp [cachedGetRepositoryInfo, hcold]
  · simp [cachedGetRepositoryInfo, hcold]
  · intro t fetch2 ht
    simp [cachedGetRepositoryInfo, mapGet_insert_self, ht]
  · intro t fetch2 ht
    have : ¬ t < now + ttl := by omega
    cases fetch2 with
    | error e => simp [cachedGetRepositoryInfo, mapGet_insert_self, this]
    | ok d2 => simp [cachedGetRepositoryInfo, mapGet_insert_self, this]
  · intro t st'
    constructor
    · unfold cachedGetRepositoryInfo
      cases h : mapGet st' (cacheKey namespaceArg repository) with
      | none => simp [h]
      | some entry =>
        by_cases hexp : t < entry.expiresAt
        · simp [h, hexp]
        · simp [h, hexp]
    · intro hc
      simp [cachedGetRepositoryInfo, hc]

/-- Witness for **C7** at a concrete cold key. -/
theorem claim_C7_witness :
    (cachedGetRepositoryInfo 0 3600 [] "library" "nginx"
        (.ok (some ⟨"library", "nginx", true, false, 7, 2, 0, "web"⟩))).2.2 = true ∧
    (cachedGetRepositoryInfo 0 3600 [] "library" "nginx"
        (.ok (some ⟨"library", "nginx", true, false, 7, 2, 0, "web"⟩))).2.1
      = mapInsert (cacheKey "library" "nginx")
          ⟨some ⟨"library", "nginx", true, false, 7, 2, 0, "web"⟩, 0 + 3600⟩ [] :=
  ⟨(claim_C7_cache_ttl_and_errors 0 3600 [] "library" "nginx"
      (some ⟨"library", "nginx", true, false, 7, 2, 0, "web"⟩) rfl).1,
   (claim_C7_cache_ttl_and_errors 0 3600 [] "library" "nginx"
      (some ⟨"library", "nginx", true, false, 7, 2, 0, "web"⟩) rfl).2.1⟩

/-- **C10.** A cache hit is read-only: when a live (non-expired) entry
exists for the key, the call returns the stored pointer, the cache state is
returned unchanged (so neither the entry nor its expiry is rewritten and a
read never extends an entry's lifetime), and the wrapped client is not
invoked. -/
theorem claim_C10_cache_hit_frame (now ttl : Int) (st : CacheMap)
    (namespaceArg repository : String) (entry : CacheEntryM)
    (fetch : Except Unit (Option RepositoryInfo))
    (hhit : mapGet st (cacheKey namespaceArg repository) = some entry)
    (hlive : now < entry.expiresAt) :
    cachedGetRepositoryInfo now ttl st namespaceArg repository fetch
      = (.ok entry.data, st, false) := by
  simp [cachedGetRepositoryInfo, hhit, hlive]

/-- Witness for **C10** at a concrete live entry. -/
theorem claim_C10_witness :
    cachedGetRepositoryInfo 10 3600
        [(cacheKey "library" "nginx",
          ⟨some ⟨"library", "nginx", true, false, 7, 2, 0, "web"⟩, 3600⟩)]
        "library" "nginx" (.error ())
      = (.ok (some ⟨"library", "nginx", true, false, 7, 2, 0, "web"⟩),
         [(cacheKey "library" "nginx",
           ⟨some ⟨"library", "nginx", true, false, 7, 2, 0, "web"⟩, 3600⟩)], false) :=
  claim_C10_cache_hit_frame 10 3600
    [(cacheKey "library" "nginx",
      ⟨some ⟨"library", "nginx", true, false, 7, 2, 0, "web"⟩, 3600⟩)]
    "library" "nginx"
    ⟨some ⟨"library", "nginx", true, false, 7, 2, 0, "web"⟩, 3600⟩ (.error ())
    (by simp [mapGet]) (by decide)

/-! ## C6: parser failure condition -/

/-- Counterexample to **C6** as stated: this identifier is non-empty, needs
no scheme stripping, and does contain an `@`-delimited digest segment (the
part after its last `@` is `sha256:bb`), yet `ParseImageID` rejects it,
because the code splits on *every* `@` and requires exactly two parts
rather than splitting on the last `@`. -/
theorem claim_C6_counterexample :
    parseImageID "registry.example/ns/app@sha256:aa@sha256:bb".toList = none ∧
    "registry.example/ns/app@sha256:aa@sha256:bb".toList ≠ [] ∧
    stripScheme "registry.example/ns/app@sha256:aa@sha256:bb".toList
      = "registry.example/ns/app@sha256:aa@sha256:bb".toList ∧
    breakLast '@' "registry.example/ns/app@sha256:aa@sha256:bb".toList
      = some ("registry.example/ns/app@sha256:aa".toList, "sha256:bb".toList) := by
  refine ⟨by decide, by decide, by decide, by decide⟩

/-- **C6 (amended).** Parsing an image identifier succeeds exactly when the
input, after unconditional stripping of a pull-scheme prefix, contains
exactly one `@`; equivalently it fails exactly when the stripped input is
empty or contains no `@`, or contains more than one `@`. -/
theorem claim_C6_amended_parse_iff (l : List Char) :
    (parseImageID l).isSome = true ↔ countChar '@' (stripScheme l) = 1 := by
  by_cases hl : l = []
  · subst hl; decide
  · rw [parseImageID, if_neg hl]
    rw [afterSplit_isSome, length_splitChar]
    omega

/-! ## C9: record-key invariant -/

theorem dropWhile_take_one (p : Char → Bool) (l : List Char) :
    ∀ x ∈ (l.dropWhile p).take 1, p x = false := by
  induction l with
  | nil => intro x hx; cases hx
  | cons y ys ih =>
    intro x hx
    by_cases hy : p y = true
    · rw [List.dropWhile_cons, if_pos hy] at hx
      exact ih x hx
    · rw [List.dropWhile_cons, if_neg hy] at hx
      simp only [List.take_succ_cons, List.take_zero, List.mem_singleton] at hx
      subst hx
      simpa using hy

theorem trimChars_isPrefix (p : Char → Bool) (l : List Char) :
    trimChars p l <+: l.dropWhile p := by
  unfold trimChars
  rw [← List.reverse_suffix]
  simp only [List.reverse_reverse]
  exact List.dropWhile_suffix p

theorem trimChars_subset (p : Char → Bool) (l : List Char) :
    trimChars p l ⊆ l := by
  intro x hx
  have h1 := (trimChars_isPrefix p l).subset hx
  exact (List.dropWhile_sublist p).subset h1

theorem trimChars_take_one (p : Char → Bool) (l : List Char) :
    ∀ x ∈ (trimChars p l).take 1, p x = false := by
  intro x hx
  obtain ⟨r, hr⟩ := trimChars_isPrefix p l
  have hne : trimChars p l ≠ [] := by
    intro h
    rw [h] at hx
    cases hx
  have : (trimChars p l).take 1 = (l.dropWhile p).take 1 := by
    rw [← hr, take_one_append_left _ _ hne]
  rw [this] at hx
  exact dropWhile_take_one p l x hx

theorem sanitizeK8sName_all_keep (m : List Char) :
    (sanitizeK8sName m).all isKeepChar = true := by
  rw [List.all_eq_true]
  intro x hx
  have h1 := trimChars_subset _ (sanitizeLoop m.length 0 m) hx
  have h2 := sanitizeLoop_all_keep m.length m 0
  rw [List.all_eq_true] at h2
  exact h2 x h1

theorem key_shape (m : List Char) :
    ((sanitizeK8sName m).take 253).length ≤ 253 ∧
    ((sanitizeK8sName m).take 253).all isKeepChar = true ∧
    (((sanitizeK8sName m).take 253).take 1).all
        (fun c => !(c == '.' || c == '-')) = true := by
  refine ⟨?_, ?_, ?_⟩
  · rw [List.length_take]
    exact min_le_left _ _
  · rw [List.all_eq_true]
    intro x hx
    have h1 := (List.take_sublist 253 (sanitizeK8sName m)).subset hx
    have h2 := sanitizeK8sName_all_keep m
    rw [List.all_eq_true] at h2
    exact h2 x h1
  · rw [List.take_take]
    have hmin : min 1 253 = 1 := by decide
    rw [hmin, List.all_eq_true]
    intro x hx
    have := trimChars_take_one (fun c => c == '.' || c == '-')
      (sanitizeLoop m.length 0 m) x hx
    simpa using this

/-- **C9.** Every derived record key is at most 253 characters long,
consists only of lowercase letters, digits, `.` and `-` (the `sanitizeK8sName`
keep set), and never begins with `.` or `-`. -/
theorem claim_C9_key_invariant (ref : Reference) :
    (referenceToCRName ref).length ≤ 253 ∧
    (referenceToCRName ref).all isKeepChar = true ∧
    ((referenceToCRName ref).take 1).all (fun c => !(c == '.' || c == '-')) = true := by
  have hdef : referenceToCRName ref
      = (sanitizeK8sName ((((ref.registry ++ '.' :: ref.repository).map
          (fun ch => if ch = '/' then '.' else ch)) ++ '.' :: shortDigestOf ref.digest).map
          goToLower)).take 253 := rfl
  rw [hdef]
  exact key_shape _


/-! ## C1: record creation for a fresh reference -/

theorem parse_registry_example (d : List Char)
    (hhex : ∀ c ∈ d, c ∈ hexLowerChars) :
    parseImageID ("registry.example/ns/app@sha256:".toList ++ d)
      = some ⟨"registry.example".toList, "ns/app".toList, [],
          "sha256:".toList ++ d,
          "registry.example/ns/app@sha256:".toList ++ d⟩ := by
  have e1 : ("registry.example/ns/app@sha256:".toList ++ d)
      = 'r' :: ("egistry.example/ns/app@sha256:".toList ++ d) := rfl
  have hne : ("registry.example/ns/app@sha256:".toList ++ d) ≠ [] := by
    rw [e1]; exact List.cons_ne_nil _ _
  have e2 : ("registry.example/ns/app@sha256:".toList ++ d)
      = "registry.example/ns/app".toList ++ '@' :: ("sha256:".toList ++ d) := rfl
  have hsha : ∀ x ∈ "sha256:".toList, x ≠ '@' := by decide
  have h2 : ∀ x ∈ "sha256:".toList ++ d, x ≠ '@' := by
    intro x hx
    rcases List.mem_append.mp hx with hmem | hmem
    · exact hsha x hmem
    · exact (hexLower_facts x (hhex x hmem)).2.2.1
  have hsplit : splitChar '@' ("registry.example/ns/app@sha256:".toList ++ d)
      = ["registry.example/ns/app".toList, "sha256:".toList ++ d] := by
    rw [e2]
    exact splitChar_pair '@' _ _ (by decide) h2
  have hstrip : stripScheme ("registry.example/ns/app@sha256:".toList ++ d)
      = ("registry.example/ns/app@sha256:".toList ++ d) := rfl
  unfold parseImageID
  rw [if_neg hne]
  show afterSplit (stripScheme ("registry.example/ns/app@sha256:".toList ++ d))
      (splitChar '@' (stripScheme ("registry.example/ns/app@sha256:".toList ++ d))) = _
  rw [hstrip, hsplit]
  rfl

theorem crName_registry_example (d : List Char) (hlen : d.length = 64)
    (hhex : ∀ c ∈ d, c ∈ hexLowerChars) :
    referenceToCRName ⟨"registry.example".toList, "ns/app".toList, [],
        "sha256:".toList ++ d,
        "registry.example/ns/app@sha256:".toList ++ d⟩
      = "registry.example.ns.app.".toList ++ d.take 8 := by
  have htake8 : ∀ c ∈ d.take 8, c ∈ hexLowerChars := fun c hc =>
    hhex c ((List.take_sublist 8 d).subset hc)
  have htklen : (d.take 8).length = 8 := by
    rw [List.length_take, hlen]
    omega
  have htkne : d.take 8 ≠ [] := by
    intro h
    rw [h] at htklen
    cases htklen
  have hshort' : shortDigestOf ("sha256:".toList ++ d) = d.take 8 := by
    have hpre : "sha256:".toList.isPrefixOf ("sha256:".toList ++ d) = true := by
      rw [List.isPrefixOf_iff_prefix]
      exact List.prefix_append _ _
    have hdrop : ("sha256:".toList ++ d).drop 7 = d := rfl
    unfold shortDigestOf
    rw [if_pos hpre]
    show (if (("sha256:".toList ++ d).drop 7).length > 8
        then (("sha256:".toList ++ d).drop 7).take 8
        else ("sha256:".toList ++ d).drop 7) = _
    rw [hdrop, hlen, if_pos (by norm_num)]
  have hdef : referenceToCRName ⟨"registry.example".toList, "ns/app".toList, [],
        "sha256:".toList ++ d, "registry.example/ns/app@sha256:".toList ++ d⟩
      = (sanitizeK8sName ((("registry.example".toList ++ '.' :: "ns/app".toList).map
          (fun ch => if ch = '/' then '.' else ch)
            ++ '.' :: shortDigestOf ("sha256:".toList ++ d)).map goToLower)).take 253 := rfl
  have hm0 : ("registry.example".toList ++ '.' :: "ns/app".toList).map
      (fun ch => if ch = '/' then '.' else ch) = "registry.example.ns.app".toList := by
    decide
  have hc1 : "registry.example.ns.app".toList.map goToLower
      = "registry.example.ns.app".toList := by decide
  have hc2 : goToLower '.' = '.' := by decide
  have hc3 : (d.take 8).map goToLower = d.take 8 :=
    mapId_of_mem goToLower _ (fun x hx => (hexLower_facts x (htake8 x hx)).1)
  have hkeep : ∀ x ∈ "registry.example.ns.app".toList ++ '.' :: d.take 8,
      isKeepChar x = true := by
    intro x hx
    rcases List.mem_append.mp hx with h | h
    · have hall : "registry.example.ns.app".toList.all isKeepChar = true := by decide
      rw [List.all_eq_true] at hall
      exact hall x h
    · rcases List.mem_cons.mp h with rfl | h
      · decide
      · exact (hexLower_facts x (htake8 x h)).2.1
  have hsan : sanitizeK8sName ("registry.example.ns.app".toList ++ '.' :: d.take 8)
      = "registry.example.ns.app".toList ++ '.' :: d.take 8 := by
    unfold sanitizeK8sName
    rw [sanitizeLoop_keep _ _ hkeep 0]
    apply trimChars_eq_self
    · intro x hx
      rw [take_one_append_left _ _
        (by decide : "registry.example.ns.app".toList ≠ [])] at hx
      have h1 : ("registry.example.ns.app".toList.take 1) = ['r'] := by decide
      rw [h1] at hx
      rcases List.mem_singleton.mp hx with rfl
      decide
    · intro x hx
      have hrev : ("registry.example.ns.app".toList ++ '.' :: d.take 8).reverse
          = ((d.take 8).reverse ++ ['.']) ++ "registry.example.ns.app".toList.reverse := by
        rw [List.reverse_append, List.reverse_cons]
      have hne1 : (d.take 8).reverse ++ ['.'] ≠ [] := by simp
      have hne2 : (d.take 8).reverse ≠ [] := by
        simp [List.reverse_eq_nil_iff, htkne]
      rw [hrev, take_one_append_left _ _ hne1, take_one_append_left _ _ hne2] at hx
      have h2 : x ∈ d.take 8 :=
        List.mem_reverse.mp ((List.take_sublist 1 _).subset hx)
      exact (hexLower_facts x (htake8 x h2)).2.2.2
  have hmlen : ("registry.example.ns.app".toList ++ '.' :: d.take 8).length ≤ 253 := by
    rw [List.length_append, List.length_cons, htklen]
    decide
  rw [hdef, hm0, hshort', List.map_append, List.map_cons, hc1, hc2, hc3, hsan,
      List.take_of_length_le hmlen]
  rfl

theorem processContainerStatus_create (now : Int) (pod : Pod)
    (store : List ImageCertificationInfo) (cs : ContainerStatus)
    (ref : Reference) (hne : cs.imageID ≠ [])
    (hp : parseImageID cs.imageID = some ref)
    (hfind : store.find? (fun cr => cr.name == referenceToCRName ref) = none) :
    processContainerStatus now pod store cs
      = store ++ [createImageCertificationInfo now ref (referenceToCRName ref)
          ⟨pod.namespaceName, pod.name, cs.name⟩] := by
  unfold processContainerStatus
  rw [if_neg hne]
  simp only [hp, hfind]

/-- **C1.** One reconciliation pass over a Running (or Pending) pod whose
single container's image identifier is
`registry.example/ns/app@sha256:<64 lowercase hex digits>`, against a store
holding no record with the derived key, appends exactly one new record: its
name is `registry.example.ns.app.` followed by the first 8 hex digits of
the digest, its certification status is Unknown (the spec's initial
Pending/Unknown state), and its pod-reference set is exactly the single
observed (namespace, pod-name, container-name) triple. -/
theorem claim_C1_fresh_reference_creates_record (d : List Char) (ns podName containerName : String)
    (phase : PodPhase) (store : List ImageCertificationInfo) (now : Int)
    (hlen : d.length = 64) (hhex : ∀ c ∈ d, c ∈ hexLowerChars)
    (hphase : phase = PodPhase.running ∨ phase = PodPhase.pending)
    (hfree : ∀ cr ∈ store,
      cr.name ≠ "registry.example.ns.app.".toList ++ d.take 8) :
    reconcilePod now ⟨ns, podName, phase,
        [⟨containerName, "registry.example/ns/app@sha256:".toList ++ d⟩], []⟩ store
      = store ++ [⟨"registry.example.ns.app.".toList ++ d.take 8,
          ⟨"sha256:".toList ++ d,
            "registry.example/ns/app@sha256:".toList ++ d,
            "registry.example".toList, "ns/app".toList, []⟩,
          ⟨.unknown, .unknown, none, [⟨ns, podName, containerName⟩],
            some now, some now, none, "", none,
            [⟨"Available", true, now, "ImageDiscovered",
              "Image has been discovered in the cluster"⟩]⟩⟩] := by
  have hparse := parse_registry_example d hhex
  have hkey := crName_registry_example d hlen hhex
  have e1 : ("registry.example/ns/app@sha256:".toList ++ d)
      = 'r' :: ("egistry.example/ns/app@sha256:".toList ++ d) := rfl
  have hne : ("registry.example/ns/app@sha256:".toList ++ d) ≠ [] := by
    rw [e1]; exact List.cons_ne_nil _ _
  have hfind : store.find? (fun cr => cr.name ==
      referenceToCRName ⟨"registry.example".toList, "ns/app".toList, [],
        "sha256:".toList ++ d,
        "registry.example/ns/app@sha256:".toList ++ d⟩) = none := by
    rw [hkey, List.find?_eq_none]
    intro x hx
    simpa using hfree x hx
  have hclass : classifyRegistry "registry.example".toList
      = RegistryType.unknown := by decide
  unfold reconcilePod
  rw [if_pos hphase]
  show processContainerStatus now ⟨ns, podName, phase,
      [⟨containerName, "registry.example/ns/app@sha256:".toList ++ d⟩], []⟩ store
      ⟨containerName, "registry.example/ns/app@sha256:".toList ++ d⟩ = _
  rw [processContainerStatus_create now _ store _ _ hne hparse hfind, hkey]
  dsimp only [createImageCertificationInfo]
  rw [hclass]

/-- Witness for **C1** at a concrete digest, pod and empty store. -/
theorem claim_C1_witness :
    reconcilePod 0 ⟨"default", "web-0", .running,
        [⟨"app", "registry.example/ns/app@sha256:".toList ++
          "0123456789abcdef0123456789abcdef0123456789abcdef0123456789abcdef".toList⟩],
        []⟩ []
      = [] ++ [⟨"registry.example.ns.app.".toList ++
          ("0123456789abcdef0123456789abcdef0123456789abcdef0123456789abcdef".toList).take 8,
          ⟨"sha256:".toList ++
            "0123456789abcdef0123456789abcdef0123456789abcdef0123456789abcdef".toList,
            "registry.example/ns/app@sha256:".toList ++
              "0123456789abcdef0123456789abcdef0123456789abcdef0123456789abcdef".toList,
            "registry.example".toList, "ns/app".toList, []⟩,
          ⟨.unknown, .unknown, none, [⟨"default", "web-0", "app"⟩],
            some 0, some 0, none, "", none,
            [⟨"Available", true, 0, "ImageDiscovered",
              "Image has been discovered in the cluster"⟩]⟩⟩] :=
  claim_C1_fresh_reference_creates_record
    "0123456789abcdef0123456789abcdef0123456789abcdef0123456789abcdef".toList
    "default" "web-0" "app" .running [] 0
    (by decide) (by decide) (Or.inl rfl) (by intro cr hcr; cases hcr)
